import Mathlib

/-!
Shallow embedding of the `sherlock-fw/components` core: the
`engines_manager` crate (`Command`, `Engine`, `EnginesManager`) and the
`ipc` crate (`MessagesBox` with its job / respond / log queues).

Rust `String` / `&str` values are modelled as `List Char`.  External
process execution is modelled by an oracle `world : Invocation →
ProcessOutcome` supplied to `Engine.execute`, abstracting everything the
program can observe of `std::process::Command::output()`.
-/

namespace Sherlock

/-- Convert a Lean string literal into the `List Char` model of Rust strings. -/
def str (s : String) : List Char := s.toList

/-! ### Rust string primitives (`str::contains`, `str::replace`, `str::split`) -/

/-- Test `leadsWith p s`: true when `p` is an initial segment of `s`
(the test Rust's substring scanners perform at each position). -/
def leadsWith : List Char → List Char → Bool
  | [], _ => true
  | _ :: _, [] => false
  | a :: as, b :: bs => a == b && leadsWith as bs

/-- Rust `str::contains(pat)`: `p` occurs as a contiguous substring of `s`. -/
def containsSub (p : List Char) : List Char → Bool
  | [] => leadsWith p []
  | c :: rest => leadsWith p (c :: rest) || containsSub p rest

/-- The literal query placeholder token `$query` (engine.rs). -/
def placeholder : List Char := ['$', 'q', 'u', 'e', 'r', 'y']

/-- Scanner for Rust `str::replace`: `skip` characters of an already-emitted
match remain to be consumed without output; at `skip = 0`, if the pattern
starts here, emit the replacement and arrange to jump past the
(non-overlapping) match, else keep the character.  Structural in the list. -/
def replAux (q : List Char) : Nat → List Char → List Char
  | _, [] => []
  | k + 1, _ :: rest => replAux q k rest
  | 0, c :: rest =>
      if leadsWith placeholder (c :: rest)
      then q ++ replAux q 5 rest
      else c :: replAux q 0 rest

/-- Rust `self.args.replace("$query", query)` (engine.rs, `Command::parse_args`):
scan left to right; at each position, if the placeholder starts here, emit the
replacement and jump past the (non-overlapping) match, else keep the character. -/
def replaceQuery (q : List Char) (s : List Char) : List Char :=
  replAux q 0 s

/-- Rust `str::split(' ')` (engine.rs, `Engine::execute`): split on every single
occurrence of the separator, keeping empty tokens; the empty string yields one
empty token. -/
def splitChar (sep : Char) : List Char → List (List Char)
  | [] => [[]]
  | c :: rest =>
      if c == sep then [] :: splitChar sep rest
      else
        match splitChar sep rest with
        | [] => [[c]]
        | t :: ts => (c :: t) :: ts

/-! ### Data model of the `engines_manager` crate -/

/-- engine.rs `Command`: name, argument template, optional description. -/
structure Command where
  name : List Char
  args : List Char
  description : Option (List Char)
deriving DecidableEq, Repr

/-- engine.rs `EngineError`. -/
inductive EngineError where
  | CommandExists
  | InvalidArgs
  | InvalidEnginePath
  | ExecutionFailed
  | UnknownCommand
  | UnknownError
deriving DecidableEq, Repr

/-- engine.rs `Engine`: name, path, command list, optional interpreter
(the `prefix` field of the Rust struct, renamed because `prefix` is a Lean
keyword), optional description. -/
structure Engine where
  name : List Char
  path : List Char
  commands : List Command
  pre : Option (List Char)
  description : Option (List Char)
deriving DecidableEq, Repr

/-- engine.rs `Command::new`: reject templates missing the `$query`
placeholder, otherwise store the three fields. -/
def Command.new (name args : List Char) (description : Option (List Char)) :
    Except EngineError Command :=
  if !(containsSub placeholder args) then
    .error .InvalidArgs
  else
    .ok { name := name, args := args, description := description }

/-- engine.rs `Command::parse_args`: replace the placeholder with the query. -/
def Command.parse_args (c : Command) (query : List Char) : List Char :=
  replaceQuery query c.args

/-- engine.rs `Engine::new` (manual construction; absent command list means
an empty one). -/
def Engine.new (name path : List Char) (pre : Option (List Char))
    (commands : Option (List Command)) (description : Option (List Char)) : Engine :=
  { name := name, path := path, pre := pre, description := description,
    commands := commands.getD [] }

/-- engine.rs `Engine::is_command_exists`. -/
def Engine.is_command_exists (e : Engine) (name : List Char) : Bool :=
  e.commands.any (fun c => c.name == name)

/-- engine.rs `self.commands.iter().find(|c| c.get_name() == command_name)`. -/
def Engine.findCommand (e : Engine) (command_name : List Char) : Option Command :=
  e.commands.find? (fun c => c.name == command_name)

/-- engine.rs `Engine::add_command`: reject duplicates, else push; the
returned `Engine` is the post-state of `&mut self`. -/
def Engine.add_command (e : Engine) (command : Command) :
    Except EngineError Unit × Engine :=
  if e.is_command_exists command.name then
    (.error .CommandExists, e)
  else
    (.ok (), { e with commands := e.commands ++ [command] })

/-- engine.rs `Engine::new_command`: duplicate-name check first, then
`Command::new` validation, then push. -/
def Engine.new_command (e : Engine) (name args : List Char)
    (description : Option (List Char)) : Except EngineError Unit × Engine :=
  if e.is_command_exists name then
    (.error .CommandExists, e)
  else
    match Command.new name args description with
    | .ok command => (.ok (), { e with commands := e.commands ++ [command] })
    | .error err => (.error err, e)

/-! ### Process invocation (`std::process::Command`) -/

/-- The external invocation `Engine::execute` builds: the program that is
spawned and its argument vector. -/
structure Invocation where
  program : List Char
  args : List (List Char)
deriving DecidableEq, Repr

/-- Everything the program can observe of `process::Command::output()`
followed by `str::from_utf8`: the spawn fails, the captured bytes are not
valid UTF-8, or they decode to a text standard output. -/
inductive ProcessOutcome where
  | startFailure
  | invalidUtf8
  | stdout (s : List Char)
deriving DecidableEq, Repr

/-- How engine.rs maps the observed process outcome to the result of
`Engine::execute`. -/
def outcomeToResult : ProcessOutcome → Except EngineError (List Char)
  | .startFailure => .error .ExecutionFailed
  | .invalidUtf8 => .error .UnknownError
  | .stdout s => .ok s

/-- engine.rs `Engine::execute`: look up the command, render its template
with the query, split on single spaces, build the invocation (program is the
interpreter when present, with the engine path as first argument; the bare
path otherwise), run it through the `world` oracle, and map the outcome. -/
def Engine.execute (world : Invocation → ProcessOutcome) (e : Engine)
    (command_name query : List Char) : Except EngineError (List Char) :=
  match e.findCommand command_name with
  | some command =>
      let args : List (List Char) := splitChar ' ' (command.parse_args query)
      let inv : Invocation :=
        match e.pre with
        | some p => { program := p, args := e.path :: args }
        | none => { program := e.path, args := args }
      outcomeToResult (world inv)
  | none => .error .UnknownCommand

/-! ### The `EnginesManager` registry (lib.rs) -/

/-- lib.rs `Error` (registry-level errors; `UnkownCommand` keeps the
source's spelling). -/
inductive Error where
  | EngineExists
  | UnknownEngine
  | UnkownCommand
  | InvalidConfig (detail : List Char)
deriving DecidableEq, Repr

/-- lib.rs `EnginesManager`: the `HashMap<String, Engine>` is modelled as an
association list with unique keys. -/
structure EnginesManager where
  engines : List (List Char × Engine)
deriving DecidableEq, Repr

/-- lib.rs `EnginesManager::init`. -/
def EnginesManager.init : EnginesManager := { engines := [] }

/-- Lookup `self.engines.borrow().get(name)`. -/
def EnginesManager.lookup (m : EnginesManager) (name : List Char) : Option Engine :=
  (m.engines.find? (fun p => p.1 == name)).map Prod.snd

/-- lib.rs `EnginesManager::add_engine`: reject duplicate names before any
mutation, else insert a fresh engine with no commands; the returned manager
is the post-state. -/
def EnginesManager.add_engine (m : EnginesManager) (name path : List Char)
    (pre description : Option (List Char)) : Except Error Unit × EnginesManager :=
  if (m.lookup name).isSome then
    (.error .EngineExists, m)
  else
    (.ok (), { engines := m.engines ++ [(name, Engine.new name path pre none description)] })

/-- lib.rs `EnginesManager::execute`: unknown engine is reported as
`UnknownEngine`; otherwise delegate to `Engine::execute` and collapse every
engine-level error to `UnkownCommand` (`.map_err(|_| Error::UnkownCommand)`). -/
def EnginesManager.execute (world : Invocation → ProcessOutcome)
    (m : EnginesManager) (engine command query : List Char) :
    Except Error (List Char) :=
  match m.lookup engine with
  | some e =>
      match Engine.execute world e command query with
      | .ok s => .ok s
      | .error _ => .error .UnkownCommand
  | none => .error .UnknownEngine

/-! ### The `ipc` crate: `MessagesBox` -/

/-- ipc lib.rs `Job`. -/
inductive Job where
  | ListEngines
  | RunEninges (engines_list : List (List Char)) (query : List Char)
deriving DecidableEq, Repr

/-- ipc lib.rs `Log`. -/
inductive Log where
  | Error (s : List Char)
  | Warning (s : List Char)
  | Info (s : List Char)
deriving DecidableEq, Repr

/-- ipc lib.rs `Respond`. -/
inductive Respond where
  | EngineResult (engine output : List Char)
  | Message (s : List Char)
  | Error (s : List Char)
deriving DecidableEq, Repr

/-- ipc lib.rs `MessagesBox`: three queues and the advisory pending flag.
The Rust singleton behind a mutex is modelled as explicit state passing:
each operation takes the current state and returns the next (receives also
return the drained snapshot). -/
structure MessagesBox where
  jobs : List Job
  responds : List Respond
  logs : List Log
  pending : Bool
deriving DecidableEq, Repr

/-- ipc lib.rs `MessagesBox::init`. -/
def MessagesBox.init : MessagesBox :=
  { jobs := [], responds := [], logs := [], pending := false }

/-- ipc lib.rs `MessagesBox::send_jobs`: extend the jobs queue, set pending. -/
def MessagesBox.send_jobs (js : List Job) (m : MessagesBox) : MessagesBox :=
  { m with jobs := m.jobs ++ js, pending := true }

/-- ipc lib.rs `MessagesBox::recieve_jobs` (source spelling): snapshot the
jobs queue, clear it, return the snapshot and the cleared state. -/
def MessagesBox.recieve_jobs (m : MessagesBox) : List Job × MessagesBox :=
  (m.jobs, { m with jobs := [] })

/-- ipc lib.rs `MessagesBox::send_responds`. -/
def MessagesBox.send_responds (rs : List Respond) (m : MessagesBox) : MessagesBox :=
  { m with responds := m.responds ++ rs, pending := true }

/-- ipc lib.rs `MessagesBox::recieve_responds` (source spelling). -/
def MessagesBox.recieve_responds (m : MessagesBox) : List Respond × MessagesBox :=
  (m.responds, { m with responds := [] })

/-- ipc lib.rs `MessagesBox::finish`: clear pending unconditionally. -/
def MessagesBox.finish (m : MessagesBox) : MessagesBox :=
  { m with pending := false }

/-- ipc lib.rs `MessagesBox::is_pending`. -/
def MessagesBox.is_pending (m : MessagesBox) : Bool :=
  m.pending

/-- ipc lib.rs `MessagesBox::send_log`: push one log entry.  Note: the
source does NOT touch `pending` here. -/
def MessagesBox.send_log (l : Log) (m : MessagesBox) : MessagesBox :=
  { m with logs := m.logs ++ [l] }

/-! ### Operation sequences on the mailbox -/

/-- One public mailbox operation (receives are applied for their state
effect; their return value is recovered by `recieve_jobs` / `recieve_responds`
at the point of interest). -/
inductive Op where
  | sendJobs (js : List Job)
  | sendResponds (rs : List Respond)
  | sendLog (l : Log)
  | recvJobs
  | recvResponds
  | finish
deriving DecidableEq, Repr

/-- State effect of one operation. -/
def applyOp (m : MessagesBox) : Op → MessagesBox
  | .sendJobs js => m.send_jobs js
  | .sendResponds rs => m.send_responds rs
  | .sendLog l => m.send_log l
  | .recvJobs => (m.recieve_jobs).2
  | .recvResponds => (m.recieve_responds).2
  | .finish => m.finish

/-- Run a sequence of operations from a state. -/
def runOps (m : MessagesBox) (ops : List Op) : MessagesBox :=
  ops.foldl applyOp m

/-- Scan of an operation sequence: starting from accumulator `b`, true after
the scan iff one of the three queues (jobs, responds, logs) has been appended
to since the last `finish` in the sequence (the reading of claim C6: a send
of an empty batch appends nothing). -/
def touchedAnyFrom (b : Bool) : List Op → Bool
  | [] => b
  | op :: rest =>
      match op with
      | .sendJobs js => touchedAnyFrom (b || !js.isEmpty) rest
      | .sendResponds rs => touchedAnyFrom (b || !rs.isEmpty) rest
      | .sendLog _ => touchedAnyFrom true rest
      | .recvJobs => touchedAnyFrom b rest
      | .recvResponds => touchedAnyFrom b rest
      | .finish => touchedAnyFrom false rest

/-- Scan `touchedAnyFrom` starting with nothing appended. -/
def touchedAny (ops : List Op) : Bool := touchedAnyFrom false ops

/-- Same scan restricted to the jobs and responds queues: true iff jobs or
responds has been appended to since the last `finish` (log sends ignored). -/
def touchedJobsRespondsFrom (b : Bool) : List Op → Bool
  | [] => b
  | op :: rest =>
      match op with
      | .sendJobs js => touchedJobsRespondsFrom (b || !js.isEmpty) rest
      | .sendResponds rs => touchedJobsRespondsFrom (b || !rs.isEmpty) rest
      | .sendLog _ => touchedJobsRespondsFrom b rest
      | .recvJobs => touchedJobsRespondsFrom b rest
      | .recvResponds => touchedJobsRespondsFrom b rest
      | .finish => touchedJobsRespondsFrom false rest

/-- Scan `touchedJobsRespondsFrom` starting with nothing appended. -/
def touchedJobsResponds (ops : List Op) : Bool := touchedJobsRespondsFrom false ops

/-- A batch of `send_jobs` calls applied in order. -/
def applyJobSends (m : MessagesBox) (sends : List (List Job)) : MessagesBox :=
  sends.foldl (fun s js => s.send_jobs js) m

/-- A batch of `send_responds` calls applied in order. -/
def applyRespondSends (m : MessagesBox) (sends : List (List Respond)) : MessagesBox :=
  sends.foldl (fun s rs => s.send_responds rs) m

/-! ### Concrete fixtures (the spec's `facebook` example) -/

/-- The spec's example command: `"user"` templated as `-search_user=$query`. -/
def fbCommand : Command :=
  { name := str "user", args := str "-search_user=$query", description := none }

/-- The spec's example engine `"facebook"` with interpreter `python3`. -/
def fbEngine : Engine :=
  { name := str "facebook", path := str "/engines/fb", commands := [fbCommand],
    pre := some (str "python3"), description := none }

/-- A registry holding only the facebook engine. -/
def mgrFB : EnginesManager := { engines := [(str "facebook", fbEngine)] }

/-- A process oracle whose spawn always succeeds with a fixed text output. -/
def okWorld : Invocation → ProcessOutcome :=
  fun _ => .stdout (str "test output\n")

/-! ### Lemmas about the string primitives -/

theorem leadsWith_iff_take {p s : List Char} :
    leadsWith p s = true ↔ s.take p.length = p := by
  induction p generalizing s with
  | nil => simp [leadsWith]
  | cons a as ih =>
      cases s with
      | nil => simp [leadsWith]
      | cons b bs =>
          simp only [leadsWith, Bool.and_eq_true, beq_iff_eq, List.length_cons,
            List.take_succ_cons, List.cons.injEq, ih]
          tauto

theorem leadsWith_append_self (p t : List Char) : leadsWith p (p ++ t) = true := by
  induction p with
  | nil => rfl
  | cons a as ih => simp [leadsWith, ih]

theorem leadsWith_containsSub {p s : List Char} (h : leadsWith p s = true) :
    containsSub p s = true := by
  cases s with
  | nil => simpa [containsSub] using h
  | cons c rest => simp [containsSub, h]

theorem containsSub_cons (p : List Char) (c : Char) (rest : List Char) :
    containsSub p (c :: rest) = (leadsWith p (c :: rest) || containsSub p rest) := rfl

/-- Skipping `k` characters with the scanner is dropping them. -/
theorem replAux_skip (q : List Char) (k : Nat) (s : List Char) :
    replAux q k s = replAux q 0 (s.drop k) := by
  induction s generalizing k with
  | nil => cases k <;> rfl
  | cons c rest ih =>
      cases k with
      | zero => rfl
      | succ k => simpa [replAux] using ih k

theorem replaceQuery_nil (q : List Char) : replaceQuery q [] = [] := rfl

theorem replaceQuery_cons (q : List Char) (c : Char) (rest : List Char) :
    replaceQuery q (c :: rest) =
      if leadsWith placeholder (c :: rest)
      then q ++ replaceQuery q (rest.drop 5)
      else c :: replaceQuery q rest := by
  show replAux q 0 (c :: rest) = _
  rw [replAux, replAux_skip]
  rfl

/-- The scanner leaves placeholder-free strings untouched. -/
theorem replaceQuery_of_not_contains (q : List Char) {s : List Char}
    (h : containsSub placeholder s = false) : replaceQuery q s = s := by
  induction s with
  | nil => rfl
  | cons c rest ih =>
      rw [containsSub_cons, Bool.or_eq_false_iff] at h
      rw [replaceQuery_cons, if_neg (by simp [h.1]), ih h.2]

/-- The placeholder `$query` has no non-trivial border, so a match cannot
straddle the boundary between a placeholder-free segment and an explicit
placeholder occurrence. -/
theorem no_straddle {s : List Char} (t : List Char) (hne : s ≠ [])
    (hno : containsSub placeholder s = false) :
    leadsWith placeholder (s ++ placeholder ++ t) = false := by
  cases hb : leadsWith placeholder (s ++ placeholder ++ t) with
  | false => rfl
  | true =>
      exfalso
      rw [leadsWith_iff_take] at hb
      have hlen : placeholder.length = 6 := rfl
      rw [hlen, List.append_assoc, List.take_append_eq_append_take] at hb
      by_cases hsn : 6 ≤ s.length
      · -- the whole placeholder would lie inside `s`
        rw [Nat.sub_eq_zero_of_le hsn, List.take_zero, List.append_nil] at hb
        have : leadsWith placeholder s = true := by
          rw [leadsWith_iff_take, hlen, hb]
        rw [leadsWith_containsSub this] at hno
        exact Bool.true_eq_false.mp hno
      · -- a proper straddle would force a border of the placeholder
        push_neg at hsn
        have hpos : 0 < s.length := List.length_pos.mpr hne
        have h1 : List.take 6 s = s := List.take_of_length_le (by omega)
        have h2 : List.take (6 - s.length) (placeholder ++ t) =
            List.take (6 - s.length) placeholder := by
          rw [List.take_append_eq_append_take]
          have hz : 6 - s.length - placeholder.length = 0 := by rw [hlen]; omega
          rw [hz, List.take_zero, List.append_nil]
        rw [h1, h2] at hb
        have hdrop := congrArg (List.drop s.length) hb
        rw [List.drop_left] at hdrop
        have hcases : s.length = 1 ∨ s.length = 2 ∨ s.length = 3 ∨
            s.length = 4 ∨ s.length = 5 := by omega
        rcases hcases with h | h | h | h | h <;> rw [h] at hdrop <;>
          exact absurd hdrop (by decide)

/-- Replacing across an explicit placeholder occurrence preceded by a
placeholder-free segment substitutes exactly there and recurses on the rest. -/
theorem replaceQuery_append_placeholder (q : List Char) {s : List Char}
    (t : List Char) (h : containsSub placeholder s = false) :
    replaceQuery q (s ++ placeholder ++ t) = s ++ q ++ replaceQuery q t := by
  induction s with
  | nil =>
      show replaceQuery q (placeholder ++ t) = q ++ replaceQuery q t
      show replAux q 0 ('$' :: (['q', 'u', 'e', 'r', 'y'] ++ t)) = _
      have hl : leadsWith placeholder ('$' :: (['q', 'u', 'e', 'r', 'y'] ++ t)) = true :=
        leadsWith_append_self placeholder t
      rw [replAux, if_pos hl, replAux_skip]
      rfl
  | cons c rest ih =>
      rw [containsSub_cons, Bool.or_eq_false_iff] at h
      have hstr : leadsWith placeholder ((c :: rest) ++ placeholder ++ t) = false :=
        no_straddle t (by simp) (by rw [containsSub_cons]; simp [h.1, h.2])
      calc replaceQuery q ((c :: rest) ++ placeholder ++ t)
          = replaceQuery q (c :: (rest ++ placeholder ++ t)) := by
            simp [List.append_assoc]
        _ = c :: replaceQuery q (rest ++ placeholder ++ t) := by
            rw [replaceQuery_cons, if_neg (by simpa [List.append_assoc] using hstr)]
        _ = c :: (rest ++ q ++ replaceQuery q t) := by rw [ih h.2]
        _ = (c :: rest) ++ q ++ replaceQuery q t := by simp

/-! ### Lemmas about the tokenizer -/

theorem splitChar_ne_nil (sep : Char) (l : List Char) : splitChar sep l ≠ [] := by
  cases l with
  | nil => simp [splitChar]
  | cons c rest =>
      rw [splitChar]
      split
      · simp
      · split <;> simp

/-- The source's space tokenizer agrees with the library's `List.splitOn`. -/
theorem splitChar_eq_splitOn (sep : Char) (l : List Char) :
    splitChar sep l = l.splitOn sep := by
  induction l with
  | nil => rfl
  | cons c rest ih =>
      show splitChar sep (c :: rest) = List.splitOnP (· == sep) (c :: rest)
      rw [List.splitOnP_cons, splitChar]
      by_cases hc : c == sep
      · rw [if_pos hc, if_pos hc, ih]; rfl
      · rw [if_neg hc, if_neg hc]
        have hne := splitChar_ne_nil sep rest
        cases hs : splitChar sep rest with
        | nil => exact absurd hs hne
        | cons t ts =>
            have : List.splitOnP (· == sep) rest = t :: ts := by
              rw [← hs, ih]; rfl
            rw [this]
            rfl

/-! ### Lemmas about mailbox operation sequences -/

theorem jobs_applyJobSends (m : MessagesBox) (sends : List (List Job)) :
    (applyJobSends m sends).jobs = m.jobs ++ sends.flatten := by
  induction sends generalizing m with
  | nil => simp [applyJobSends]
  | cons js rest ih =>
      show (applyJobSends (m.send_jobs js) rest).jobs = _
      rw [ih]
      simp [MessagesBox.send_jobs]

theorem responds_applyRespondSends (m : MessagesBox) (sends : List (List Respond)) :
    (applyRespondSends m sends).responds = m.responds ++ sends.flatten := by
  induction sends generalizing m with
  | nil => simp [applyRespondSends]
  | cons rs rest ih =>
      show (applyRespondSends (m.send_responds rs) rest).responds = _
      rw [ih]
      simp [MessagesBox.send_responds]

theorem responds_foldl_singleton (order : List Respond) (m : MessagesBox) :
    (order.foldl (fun s r => s.send_responds [r]) m).responds = m.responds ++ order := by
  induction order generalizing m with
  | nil => simp
  | cons r rest ih =>
      show (rest.foldl (fun s r => s.send_responds [r]) (m.send_responds [r])).responds = _
      rw [ih]
      simp [MessagesBox.send_responds]

/-- Invariant carried along a run: if the scan accumulator forces pending,
pending holds, and then a true scan result forces pending at the end. -/
theorem pending_invariant_aux (ops : List Op) :
    ∀ (b : Bool) (m : MessagesBox), (b = true → m.pending = true) →
      touchedJobsRespondsFrom b ops = true → (runOps m ops).pending = true := by
  induction ops with
  | nil => intro b m hb ht; exact hb ht
  | cons op rest ih =>
      intro b m hb ht
      cases op with
      | sendJobs js =>
          exact ih _ (m.send_jobs js) (fun _ => rfl) ht
      | sendResponds rs =>
          exact ih _ (m.send_responds rs) (fun _ => rfl) ht
      | sendLog l =>
          exact ih b (m.send_log l) hb ht
      | recvJobs =>
          exact ih b (m.recieve_jobs).2 hb ht
      | recvResponds =>
          exact ih b (m.recieve_responds).2 hb ht
      | finish =>
          exact ih false m.finish (by simp) ht

/-! ### The claims -/

/-- C1: for every registry, engine name, command name and query, if no
engine with that name is registered `EnginesManager.execute` returns
`UnknownEngine`; if the engine exists, every error returned by
`Engine.execute` — whichever variant — is collapsed to the single
registry-level `UnkownCommand` outcome, and a successful result is
returned unchanged. -/
theorem registry_execute_collapses_errors (world : Invocation → ProcessOutcome)
    (m : EnginesManager) (eng cn q : List Char) :
    (m.lookup eng = none →
      EnginesManager.execute world m eng cn q = .error .UnknownEngine) ∧
    (∀ e, m.lookup eng = some e →
      (∀ err, Engine.execute world e cn q = .error err →
        EnginesManager.execute world m eng cn q = .error .UnkownCommand) ∧
      (∀ s, Engine.execute world e cn q = .ok s →
        EnginesManager.execute world m eng cn q = .ok s)) := by
  refine ⟨fun h => ?_, fun e he => ⟨fun err herr => ?_, fun s hs => ?_⟩⟩
  · simp [EnginesManager.execute, h]
  · simp [EnginesManager.execute, he, herr]
  · simp [EnginesManager.execute, he, hs]

/-- Witness for C1: the spec's example — `"search"` is not a command of the
facebook engine, so the registry reports `UnkownCommand`; a registry without
engine `"ghost"` reports `UnknownEngine`. -/
theorem registry_execute_collapses_errors_witness :
    EnginesManager.execute okWorld mgrFB (str "facebook") (str "search") (str "user123")
        = .error .UnkownCommand ∧
    EnginesManager.execute okWorld EnginesManager.init (str "ghost") (str "c") (str "q")
        = .error .UnknownEngine :=
  ⟨((registry_execute_collapses_errors okWorld mgrFB (str "facebook") (str "search")
        (str "user123")).2 fbEngine (by decide)).1 EngineError.UnknownCommand rfl,
   (registry_execute_collapses_errors okWorld EnginesManager.init (str "ghost") (str "c")
        (str "q")).1 rfl⟩

/-- C2: `Engine.execute` renders the found command's template with the
query, splits the rendered string on single ASCII spaces (the library
tokenizer `List.splitOn ' '` states the spec's words), and invokes program
= interpreter with the engine path as first argument when a prefix is
present, else program = path with the token list alone; when the command
name is absent it returns `UnknownCommand` for every process oracle,
without invoking anything. -/
theorem engine_execute_builds_invocation (e : Engine) (cn q : List Char) :
    (e.findCommand cn = none →
      ∀ world, Engine.execute world e cn q = .error .UnknownCommand) ∧
    (∀ c, e.findCommand cn = some c →
      ∀ world, Engine.execute world e cn q =
        outcomeToResult (world
          (match e.pre with
           | some p =>
               { program := p, args := e.path :: (Command.parse_args c q).splitOn ' ' }
           | none =>
               { program := e.path, args := (Command.parse_args c q).splitOn ' ' }))) := by
  constructor
  · intro h world
    simp [Engine.execute, h]
  · intro c hc world
    cases hp : e.pre <;> simp [Engine.execute, hc, hp, splitChar_eq_splitOn]

/-- Witness for C2: the spec's example — engine `"facebook"` with command
`"user"` templated `-search_user=$query` and prefix `python3`, query
`user123`, invokes `python3 /engines/fb -search_user=user123` and returns
the captured standard output unchanged. -/
theorem engine_execute_builds_invocation_witness :
    Engine.execute okWorld fbEngine (str "user") (str "user123")
        = .ok (str "test output\n") ∧
    okWorld { program := str "python3",
              args := [str "/engines/fb", str "-search_user=user123"] }
        = .stdout (str "test output\n") :=
  ⟨((engine_execute_builds_invocation fbEngine (str "user") (str "user123")).2
      fbCommand (by decide) okWorld).trans rfl, rfl⟩

/-- C3: `Command.new` fails with `InvalidArgs` iff the args template lacks
the `$query` placeholder; otherwise it stores the given fields. -/
theorem command_new_invalid_iff_missing_placeholder (name args : List Char)
    (d : Option (List Char)) :
    (containsSub placeholder args = false →
      Command.new name args d = .error .InvalidArgs) ∧
    (containsSub placeholder args = true →
      Command.new name args d = .ok ⟨name, args, d⟩) := by
  constructor <;> intro h <;> simp [Command.new, h]

/-- Witness for C3: a template without the placeholder is rejected, one
with it is stored verbatim. -/
theorem command_new_invalid_iff_missing_placeholder_witness :
    Command.new (str "user") (str "-u query") none = .error .InvalidArgs ∧
    Command.new (str "user") (str "-u $query") none
        = .ok ⟨str "user", str "-u $query", none⟩ :=
  ⟨(command_new_invalid_iff_missing_placeholder (str "user") (str "-u query") none).1
      (by decide),
   (command_new_invalid_iff_missing_placeholder (str "user") (str "-u $query") none).2
      (by decide)⟩

/-- C4: rendering is the pure function `replaceQuery` applied to the stored
template; on a template without the placeholder it is the identity; and
across any explicit placeholder occurrence preceded by a placeholder-free
segment it substitutes the query verbatim there and leaves the segment
unchanged (which, applied repeatedly, replaces every occurrence and
nothing else). -/
theorem parse_args_replaces_every_occurrence (c : Command) (q : List Char) :
    Command.parse_args c q = replaceQuery q c.args ∧
    (containsSub placeholder c.args = false → Command.parse_args c q = c.args) ∧
    (∀ s t : List Char, containsSub placeholder s = false →
      replaceQuery q (s ++ placeholder ++ t) = s ++ q ++ replaceQuery q t) :=
  ⟨rfl, fun h => replaceQuery_of_not_contains q h,
   fun _ t h => replaceQuery_append_placeholder q t h⟩

/-- Witness for C4: identity on a placeholder-free template, substitution
across an explicit occurrence. -/
theorem parse_args_replaces_every_occurrence_witness :
    Command.parse_args ⟨str "c", str "ab", none⟩ (str "X") = str "ab" ∧
    replaceQuery (str "X") (str "-u=" ++ placeholder ++ str "!")
        = str "-u=" ++ str "X" ++ replaceQuery (str "X") (str "!") :=
  ⟨(parse_args_replaces_every_occurrence ⟨str "c", str "ab", none⟩ (str "X")).2.1
      (by decide),
   (parse_args_replaces_every_occurrence ⟨str "c", str "ab", none⟩ (str "X")).2.2
      (str "-u=") (str "!") (by decide)⟩

/-- C5: adding a command (resp. engine) whose name is already present fails
with `CommandExists` (resp. `EngineExists`) and returns the stored
collection — including the prior entry under that name — exactly
unchanged. -/
theorem duplicate_add_fails_and_preserves_state :
    (∀ (e : Engine) (c : Command), e.is_command_exists c.name = true →
      e.add_command c = (.error .CommandExists, e)) ∧
    (∀ (m : EnginesManager) (name path : List Char) (pre d : Option (List Char)),
      (m.lookup name).isSome = true →
      m.add_engine name path pre d = (.error .EngineExists, m)) := by
  constructor
  · intro e c h
    simp [Engine.add_command, h]
  · intro m name path pre d h
    simp [EnginesManager.add_engine, h]

/-- Witness for C5: re-adding command `"user"` (with different args) and
re-adding engine `"facebook"` (with a different path) both fail and leave
the state untouched. -/
theorem duplicate_add_fails_and_preserves_state_witness :
    fbEngine.add_command ⟨str "user", str "-x $query", none⟩
        = (.error .CommandExists, fbEngine) ∧
    mgrFB.add_engine (str "facebook") (str "/other") none none
        = (.error .EngineExists, mgrFB) :=
  ⟨duplicate_add_fails_and_preserves_state.1 fbEngine ⟨str "user", str "-x $query", none⟩
      (by decide),
   duplicate_add_fails_and_preserves_state.2 mgrFB (str "facebook") (str "/other")
      none none (by decide)⟩

/-- C10: `Engine.new_command` checks the duplicate name before validating
the template, so a duplicate name yields `CommandExists` for every args
string — even one lacking the placeholder — and never `InvalidArgs`. -/
theorem duplicate_name_checked_before_template (e : Engine) (name args : List Char)
    (d : Option (List Char)) (h : e.is_command_exists name = true) :
    e.new_command name args d = (.error .CommandExists, e) := by
  simp [Engine.new_command, h]

/-- Witness for C10: duplicate name `"user"` with an invalid (placeholder
free) template still yields `CommandExists`. -/
theorem duplicate_name_checked_before_template_witness :
    fbEngine.new_command (str "user") (str "no-placeholder-here") none
        = (.error .CommandExists, fbEngine) :=
  duplicate_name_checked_before_template fbEngine (str "user")
    (str "no-placeholder-here") none (by decide)

/-- Counterexample for C6 as stated: `send_log` appends to the logs queue
but the source does not set `pending` there, so after a single log send
from the initial state the logs queue has been appended to since the last
finish while `pending` is still false. -/
theorem pending_ignores_log_sends_cex :
    touchedAny [Op.sendLog (Log.Info (str "x"))] = true ∧
    (runOps MessagesBox.init [Op.sendLog (Log.Info (str "x"))]).pending = false := by
  exact ⟨by decide, by decide⟩

/-- C6 (amended): after any sequence of mailbox operations from the initial
state, `pending` is true whenever the jobs or responds queue — not the logs
queue, which `send_log` appends to without touching the flag — has been
appended to since the last `finish`. -/
theorem pending_true_when_jobs_or_responds_appended (ops : List Op)
    (h : touchedJobsResponds ops = true) :
    (runOps MessagesBox.init ops).pending = true :=
  pending_invariant_aux ops false MessagesBox.init (by simp) h

/-- Witness for C6 (amended): a single non-empty job send from the initial
state leaves `pending` true. -/
theorem pending_true_when_jobs_or_responds_appended_witness :
    (runOps MessagesBox.init [Op.sendJobs [Job.ListEngines]]).pending = true :=
  pending_true_when_jobs_or_responds_appended [Op.sendJobs [Job.ListEngines]] (by decide)

/-- Counterexample for C7 as stated: with an empty sequence of prior
`send_jobs` calls the first `recieve_jobs` returns the empty list, so the
claimed non-empty first result fails. -/
theorem receive_jobs_after_no_sends_cex :
    ¬ ((MessagesBox.recieve_jobs (applyJobSends MessagesBox.init [])).1 ≠ [] ∧
       (MessagesBox.recieve_jobs
         (MessagesBox.recieve_jobs (applyJobSends MessagesBox.init [])).2).1 = []) := by
  decide

/-- C7 (amended): for any sequence of prior `send_jobs` calls from the
initial state with no intervening receive, the first `recieve_jobs` returns
a non-empty result provided the calls sent at least one job in total, and
an immediately following second `recieve_jobs` always returns the empty
list. -/
theorem receive_jobs_nonempty_then_empty (sends : List (List Job)) :
    (sends.flatten ≠ [] →
      (MessagesBox.recieve_jobs (applyJobSends MessagesBox.init sends)).1 ≠ []) ∧
    (MessagesBox.recieve_jobs
      (MessagesBox.recieve_jobs (applyJobSends MessagesBox.init sends)).2).1 = [] := by
  constructor
  · intro h
    show (applyJobSends MessagesBox.init sends).jobs ≠ []
    rw [jobs_applyJobSends]
    simpa [MessagesBox.init] using h
  · rfl

/-- Witness for C7 (amended): one prior send of one job gives a non-empty
first receive and an empty second receive. -/
theorem receive_jobs_nonempty_then_empty_witness :
    (MessagesBox.recieve_jobs
        (applyJobSends MessagesBox.init [[Job.ListEngines]])).1 ≠ [] ∧
    (MessagesBox.recieve_jobs
      (MessagesBox.recieve_jobs
        (applyJobSends MessagesBox.init [[Job.ListEngines]])).2).1 = [] :=
  ⟨(receive_jobs_nonempty_then_empty [[Job.ListEngines]]).1 (by decide),
   (receive_jobs_nonempty_then_empty [[Job.ListEngines]]).2⟩

/-- C8: starting from a state whose respective queue is empty (the residue
of the last receive), a receive returns exactly the batches sent since
then, concatenated in insertion (FIFO) order, and the queue is empty
immediately afterwards — for the jobs queue and the responds queue alike. -/
theorem receive_returns_fifo_and_clears (m : MessagesBox)
    (sendsJ : List (List Job)) (sendsR : List (List Respond)) :
    (m.jobs = [] →
      (MessagesBox.recieve_jobs (applyJobSends m sendsJ)).1 = sendsJ.flatten ∧
      (MessagesBox.recieve_jobs (applyJobSends m sendsJ)).2.jobs = []) ∧
    (m.responds = [] →
      (MessagesBox.recieve_responds (applyRespondSends m sendsR)).1 = sendsR.flatten ∧
      (MessagesBox.recieve_responds (applyRespondSends m sendsR)).2.responds = []) := by
  constructor
  · intro h
    refine ⟨?_, rfl⟩
    show (applyJobSends m sendsJ).jobs = sendsJ.flatten
    rw [jobs_applyJobSends, h, List.nil_append]
  · intro h
    refine ⟨?_, rfl⟩
    show (applyRespondSends m sendsR).responds = sendsR.flatten
    rw [responds_applyRespondSends, h, List.nil_append]

/-- Witness for C8: two job batches and two respond batches are returned
concatenated in order and the queues are cleared. -/
theorem receive_returns_fifo_and_clears_witness :
    (MessagesBox.recieve_jobs
        (applyJobSends MessagesBox.init
          [[Job.ListEngines], [Job.RunEninges [str "facebook"] (str "q")]])).1
      = [Job.ListEngines, Job.RunEninges [str "facebook"] (str "q")] ∧
    (MessagesBox.recieve_responds
        (applyRespondSends MessagesBox.init
          [[Respond.Message (str "1")], [Respond.Message (str "2")]])).1
      = [Respond.Message (str "1"), Respond.Message (str "2")] :=
  ⟨((receive_returns_fifo_and_clears MessagesBox.init
      [[Job.ListEngines], [Job.RunEninges [str "facebook"] (str "q")]]
      [[Respond.Message (str "1")], [Respond.Message (str "2")]]).1 rfl).1,
   ((receive_returns_fifo_and_clears MessagesBox.init
      [[Job.ListEngines], [Job.RunEninges [str "facebook"] (str "q")]]
      [[Respond.Message (str "1")], [Respond.Message (str "2")]]).2 rfl).1⟩

/-- C9: each `send_responds` appends atomically under the mailbox lock, so
an interleaving of N producers each sending one message is some permutation
`order` of the N messages applied in sequence; a `recieve_responds` that
observes all the sends (runs after them) on an initially empty queue
returns exactly N messages — none lost, none duplicated (a permutation of
the messages) — and leaves the queue empty. -/
theorem concurrent_sends_no_loss_no_dup (msgs order : List Respond)
    (m : MessagesBox) (hm : m.responds = []) (hperm : order.Perm msgs) :
    (MessagesBox.recieve_responds
        (order.foldl (fun s r => s.send_responds [r]) m)).1.length = msgs.length ∧
    (MessagesBox.recieve_responds
        (order.foldl (fun s r => s.send_responds [r]) m)).1.Perm msgs ∧
    (MessagesBox.recieve_responds
        (order.foldl (fun s r => s.send_responds [r]) m)).2.responds = [] := by
  have hr : (order.foldl (fun s r => s.send_responds [r]) m).responds = order := by
    rw [responds_foldl_singleton, hm, List.nil_append]
  refine ⟨?_, ?_, rfl⟩
  · show (order.foldl (fun s r => s.send_responds [r]) m).responds.length = msgs.length
    rw [hr]
    exact hperm.length_eq
  · show ((order.foldl (fun s r => s.send_responds [r]) m).responds).Perm msgs
    rw [hr]
    exact hperm

/-- Witness for C9: two producers' messages arriving in reversed order are
all returned by the receive, as a permutation of the sent messages. -/
theorem concurrent_sends_no_loss_no_dup_witness :
    (MessagesBox.recieve_responds
        ([Respond.Message (str "2"), Respond.Message (str "1")].foldl
          (fun s r => s.send_responds [r]) MessagesBox.init)).1.length = 2 ∧
    (MessagesBox.recieve_responds
        ([Respond.Message (str "2"), Respond.Message (str "1")].foldl
          (fun s r => s.send_responds [r]) MessagesBox.init)).1.Perm
      [Respond.Message (str "1"), Respond.Message (str "2")] :=
  ⟨(concurrent_sends_no_loss_no_dup
      [Respond.Message (str "1"), Respond.Message (str "2")]
      [Respond.Message (str "2"), Respond.Message (str "1")]
      MessagesBox.init rfl (by decide)).1,
   (concurrent_sends_no_loss_no_dup
      [Respond.Message (str "1"), Respond.Message (str "2")]
      [Respond.Message (str "2"), Respond.Message (str "1")]
      MessagesBox.init rfl (by decide)).2.1⟩

end Sherlock
